import Mathlib

/-!
Verification of the hugo-calendar program: a shallow embedding of its
Go source (argument parsing, per-date post aggregation, month-range
derivation, calendar-grid construction and terminal layout), followed by
theorems settling the specification claims.

Conventions of the embedding:
* Go maps from formatted date strings to counts are modelled as
  association lists keyed by civil dates.  The source keys maps by the
  day-precision string rendering of a date; that rendering is injective on
  civil dates, so a (year, month, day) triple stands in for the string.
* Terminal colors are modelled as an abstract cell style (today / active /
  neutral); the source's color library calls carry no other information.
* Loops with a data-dependent trip count are written with an explicit
  fuel argument large enough for the source's actual bound; a theorem
  below shows the fuel never runs out (the result is fuel-independent),
  which is the termination fact of the source loop.
-/

/-- Civil date (year, month, day); models the source's day-precision
date keys formatted as YYYY-MM-DD. -/
structure Date where
  year : Nat
  month : Nat
  day : Nat
deriving DecidableEq

/-- Leap-year test of the Gregorian calendar, as Go's time package
computes month lengths. -/
def isLeapYear (y : Nat) : Bool :=
  (y % 4 == 0 && y % 100 != 0) || y % 400 == 0

/-- Number of days in a month.  The source obtains this as
firstDay.AddDate(0, 1, -1).Day(); this is the closed form of that
computation for months 1..12. -/
def daysInMonth (y m : Nat) : Nat :=
  if m = 2 then (if isLeapYear y then 29 else 28)
  else if m = 4 ∨ m = 6 ∨ m = 9 ∨ m = 11 then 30
  else 31

/-- Days in the months strictly before month m in a non-leap year. -/
def daysBeforeMonth (m : Nat) : Nat :=
  match m with
  | 1 => 0
  | 2 => 31
  | 3 => 59
  | 4 => 90
  | 5 => 120
  | 6 => 151
  | 7 => 181
  | 8 => 212
  | 9 => 243
  | 10 => 273
  | 11 => 304
  | _ => 334

/-- Ordinal of the given day within its year (1 for January 1). -/
def dayOfYear (y m d : Nat) : Nat :=
  daysBeforeMonth m + (if 2 < m ∧ isLeapYear y then 1 else 0) + d

/-- Rata-die day number of a proleptic-Gregorian civil date
(January 1 of year 1 is day 1). -/
def rataDie (y m d : Nat) : Nat :=
  365 * (y - 1) + (y - 1) / 4 - (y - 1) / 100 + (y - 1) / 400 + dayOfYear y m d

/-- Weekday of a civil date with Sunday = 0, matching Go's
time.Weekday used by the source (January 1 of year 1 is a Monday). -/
def weekday (y m d : Nat) : Nat :=
  rataDie y m d % 7

/-- Weekday of the first day of the month: the source's startWeekday. -/
def startWeekday (y m : Nat) : Nat :=
  weekday y m 1

example : weekday 2024 1 1 = 1 := by decide
example : weekday 2025 10 11 = 6 := by decide
example : daysInMonth 2024 2 = 29 := by decide
example : daysInMonth 2023 2 = 28 := by decide

/-! ## DateIndex: per-date post counts (source: parsePostsAndCount) -/

/-- The post-count map of the source (a Go map from date key to count),
modelled as an association list. -/
abbrev PostCounts : Type := List (Date × Nat)

/-- Map read with Go's zero-value default: postCounts[dateKey] is 0 for
an absent key. -/
def lookupCount (pc : PostCounts) (d : Date) : Nat :=
  match List.lookup d pc with
  | some n => n
  | none => 0

/-- The statement postCounts[dateKey]++ of the source: bump the count of
an existing key, or insert the key at count 1. -/
def incrementCount : PostCounts → Date → PostCounts
  | [], d => [(d, 1)]
  | (k, v) :: rest, d =>
      if k = d then (k, v + 1) :: rest else (k, v) :: incrementCount rest d

/-- One post as seen by the aggregation: its front-matter date
(day precision), draft flag, and body text. -/
structure PostRecord where
  date : Date
  draft : Bool
  body : String
deriving DecidableEq

/-- Substring search on character lists, models Go's strings.Contains. -/
def strContainsAux (needle : List Char) : List Char → Bool
  | [] => needle.isEmpty
  | c :: rest => List.isPrefixOf needle (c :: rest) || strContainsAux needle rest

/-- Go's strings.Contains(s, sub). -/
def strContains (s sub : String) : Bool :=
  strContainsAux sub.data s.data

/-- Go's strings.HasPrefix(s, pre), on the underlying character list. -/
def strHasPrefix (s pre : String) : Bool :=
  List.isPrefixOf pre.data s.data

/-- Core of the source's parsePostsAndCount: fold the post records in
walk order, skipping drafts and filter matches, incrementing the count
at each remaining record's date. -/
def parsePostsAndCount (filterText : String) (records : List PostRecord) : PostCounts :=
  records.foldl
    (fun pc r =>
      if r.draft then pc
      else if filterText ≠ "" && strContains r.body filterText then pc
      else incrementCount pc r.date)
    []

/-! ## Cells and the calendar grid (source: generateCalendarGrid) -/

/-- Visual state of a rendered day cell.  The source expresses these as
color-library attribute sets: today is FgBlack on BgWhite, active is
bold FgHiGreen, neutral is FgWhite. -/
inductive CellStyle where
  | today
  | active
  | neutral
deriving DecidableEq

/-- One position of a month grid: padding, or a numbered day carrying
its activity count and its is-today flag. -/
inductive Cell where
  | padding : Cell
  | day (d : Nat) (count : Nat) (isToday : Bool) : Cell
deriving DecidableEq

/-- The day cell the source constructs for day d of the displayed month:
count looked up in the index, isToday by comparing the date key with the
current date's key. -/
def mkCell (y m : Nat) (pc : PostCounts) (today : Date) (d : Nat) : Cell :=
  Cell.day d (lookupCount pc (Date.mk y m d)) (decide (Date.mk y m d = today))

/-- Inner column loop of generateCalendarGrid: emit the cells of columns
col .. col+k-1 of week row weekRow, threading the day counter.  Padding
before the month start (row 0, column below startWeekday s), a day cell
while the day counter is at most D, padding after the month ends. -/
def buildRowFrom (y m : Nat) (pc : PostCounts) (today : Date) (weekRow s D : Nat) :
    Nat → Nat → Nat → List Cell × Nat
  | 0, _, day => ([], day)
  | k + 1, col, day =>
      if weekRow = 0 ∧ col < s then
        let r := buildRowFrom y m pc today weekRow s D k (col + 1) day
        (Cell.padding :: r.1, r.2)
      else if day ≤ D then
        let r := buildRowFrom y m pc today weekRow s D k (col + 1) (day + 1)
        (mkCell y m pc today day :: r.1, r.2)
      else
        let r := buildRowFrom y m pc today weekRow s D k (col + 1) day
        (Cell.padding :: r.1, r.2)

/-- Outer week-row loop of generateCalendarGrid: build 7-column rows,
stopping after the row on which the day counter passed D.  The fuel
argument bounds the iteration count; D + 1 is always enough (proved
below), mirroring the source loop's termination. -/
def buildGridAux (y m : Nat) (pc : PostCounts) (today : Date) (s D : Nat) :
    Nat → Nat → Nat → List (List Cell)
  | 0, _, _ => []
  | fuel + 1, day, weekRow =>
      let r := buildRowFrom y m pc today weekRow s D 7 0 day
      if D < r.2 then [r.1]
      else r.1 :: buildGridAux y m pc today s D fuel r.2 (weekRow + 1)

/-- The cell grid of one month: the source's generateCalendarGrid before
its cells are turned into strings.  Starts at day 1, week row 0. -/
def calendarGridCells (y m : Nat) (pc : PostCounts) (today : Date) : List (List Cell) :=
  buildGridAux y m pc today (startWeekday y m) (daysInMonth y m) (daysInMonth y m + 1) 1 0

/-- Go's fmt %2d: decimal, right-justified in a field of width 2, wider
numbers overflow the field. -/
def fmt2d (n : Nat) : String :=
  if n < 10 then " " ++ Nat.repr n else Nat.repr n

/-- Style and text of one day cell, following the nested conditionals of
the source exactly: count display mode prints the count (literal " 0"
when zero), day mode prints the day number; isToday picks the today
style in every branch, otherwise a positive count picks the active
style. -/
def renderDayCell (showCounts : Bool) (day count : Nat) (isToday : Bool) :
    CellStyle × String :=
  if showCounts then
    if count > 0 then
      if isToday then (CellStyle.today, fmt2d count) else (CellStyle.active, fmt2d count)
    else
      if isToday then (CellStyle.today, " 0") else (CellStyle.neutral, " 0")
  else
    if count > 0 then
      if isToday then (CellStyle.today, fmt2d day) else (CellStyle.active, fmt2d day)
    else
      if isToday then (CellStyle.today, fmt2d day) else (CellStyle.neutral, fmt2d day)

/-- Visible text of one cell; padding cells are two spaces. -/
def cellText (showCounts : Bool) : Cell → String
  | Cell.padding => "  "
  | Cell.day d count isToday => (renderDayCell showCounts d count isToday).2

/-- Go's strings.Join(parts, sep). -/
def joinSep (sep : String) : List String → String
  | [] => ""
  | [x] => x
  | x :: xs => x ++ sep ++ joinSep sep xs

/-- One printed grid line: the row's cell texts joined by single
spaces. -/
def rowLine (showCounts : Bool) (row : List Cell) : String :=
  joinSep " " (row.map (cellText showCounts))

/-- The source's generateCalendarGrid: the list of printed lines of one
month's calendar body. -/
def generateCalendarGrid (y m : Nat) (pc : PostCounts) (today : Date)
    (showCounts : Bool) : List String :=
  (calendarGridCells y m pc today).map (rowLine showCounts)

/-! ## Row layout (source: renderCalendarGrid, getTerminalWidth) -/

/-- Width the source assumes when the terminal size ioctl fails
(non-interactive output). -/
def fallbackWidth : Nat := 80

/-- Calendars per display row: terminalWidth / 22 clamped up to at least
one, exactly the source's computation. -/
def calendarsPerRow (terminalWidth : Nat) : Nat :=
  let c := terminalWidth / 22
  if c < 1 then 1 else c

/-- The source's display-row loop indexing (i advances by cpr, each slice
is months[i : min (i+cpr) len]), written as take/drop with fuel bounded
by the list length. -/
def chunksAux (cpr : Nat) : Nat → List α → List (List α)
  | 0, _ => []
  | _, [] => []
  | fuel + 1, l => l.take cpr :: chunksAux cpr fuel (l.drop cpr)

/-- Split the month list into display-row groups of cpr months. -/
def monthChunks (cpr : Nat) (months : List α) : List (List α) :=
  chunksAux cpr months.length months

/-- The 20-space filler printed in place of a missing grid row when
side-by-side calendars have unequal heights (strings.Repeat of a space,
20 times). -/
def blankLine : String :=
  String.mk (List.replicate 20 ' ')

/-- English month names, as Go's January 2006 format prints them. -/
def monthName (m : Nat) : String :=
  match m with
  | 1 => "January"
  | 2 => "February"
  | 3 => "March"
  | 4 => "April"
  | 5 => "May"
  | 6 => "June"
  | 7 => "July"
  | 8 => "August"
  | 9 => "September"
  | 10 => "October"
  | 11 => "November"
  | _ => "December"

/-- Go's fmt %-20s: left-justify in a field of 20 columns. -/
def padRight20 (s : String) : String :=
  s ++ String.mk (List.replicate (20 - s.length) ' ')

/-- The printed lines of one display row: month-name header, weekday
header, then one line per grid row index up to the tallest grid, shorter
grids contributing the 20-space filler, and a trailing blank line. -/
def displayRowLines (pc : PostCounts) (today : Date) (showCounts : Bool)
    (rowMonths : List (Nat × Nat)) : List String :=
  let grids := rowMonths.map (fun ym => generateCalendarGrid ym.1 ym.2 pc today showCounts)
  let maxRows := grids.foldl (fun acc g => max acc g.length) 0
  let headerLine := joinSep "  " (rowMonths.map (fun ym => padRight20 (monthName ym.2 ++ " " ++ Nat.repr ym.1)))
  let dayHeaderLine := joinSep "  " (rowMonths.map (fun _ => "Su Mo Tu We Th Fr Sa"))
  let bodyLines := (List.range maxRows).map
    (fun r => joinSep "  " (grids.map (fun g => g.getD r blankLine)))
  headerLine :: dayHeaderLine :: (bodyLines ++ [""])

/-- The source's renderCalendarGrid: group the months into display rows
by the width-derived capacity and emit every display row's lines. -/
def renderCalendarGridLines (months : List (Nat × Nat)) (pc : PostCounts)
    (showCounts : Bool) (today : Date) (terminalWidth : Nat) : List String :=
  (monthChunks (calendarsPerRow terminalWidth) months).flatMap
    (displayRowLines pc today showCounts)

/-! ## Month range derivation (source: renderCalendars) -/

/-- Go's time.Time.Before on day-precision civil dates: lexicographic
comparison of (year, month, day). -/
def dateBefore (a b : Date) : Bool :=
  a.year < b.year ||
    (a.year == b.year && (a.month < b.month ||
      (a.month == b.month && a.day < b.day)))

/-- Go's time.Time.After on day-precision civil dates. -/
def dateAfter (a b : Date) : Bool :=
  dateBefore b a

/-- The source's min-date fold over the index keys, starting from
dates[0]. -/
def spanMinDate (d0 : Date) (dates : List Date) : Date :=
  dates.foldl (fun acc d => if dateBefore d acc then d else acc) d0

/-- The source's max-date fold over the index keys, starting from
dates[0]. -/
def spanMaxDate (d0 : Date) (dates : List Date) : Date :=
  dates.foldl (fun acc d => if dateAfter d acc then d else acc) d0

/-- Go's AddDate(0, 1, 0) restricted to first-of-month dates with a
valid month: step to the next calendar month. -/
def addMonthGo (ym : Nat × Nat) : Nat × Nat :=
  if ym.2 = 12 then (ym.1 + 1, 1) else (ym.1, ym.2 + 1)

/-- Go's current.After(end) for two first-of-month dates: lexicographic
comparison of (year, month). -/
def monthAfter (a b : Nat × Nat) : Bool :=
  b.1 < a.1 || (b.1 == a.1 && b.2 < a.2)

/-- The source's month loop: collect months from cur while it is not
after e, stepping one month at a time.  Fuel bounds the iteration count;
12 * (e.1 + 1) always suffices for a valid start month. -/
def monthsFromTo : Nat → (Nat × Nat) → (Nat × Nat) → List (Nat × Nat)
  | 0, _, _ => []
  | fuel + 1, cur, e =>
      if monthAfter cur e then []
      else cur :: monthsFromTo fuel (addMonthGo cur) e

/-- The month list renderCalendars derives: the explicitly requested
month alone, or the gapless span from the month of the earliest index
key to the month of the latest.  The month filter arrives already parsed
from its YYYY-MM string (the parse is a shim; a failed parse aborts the
render before this point). -/
def renderCalendarsMonths (pc : PostCounts) (monthFilter : Option (Nat × Nat)) :
    List (Nat × Nat) :=
  match monthFilter with
  | some ym => [ym]
  | none =>
      match pc.map (fun e => e.1) with
      | [] => []
      | d0 :: rest =>
          let minD := spanMinDate d0 (d0 :: rest)
          let maxD := spanMaxDate d0 (d0 :: rest)
          monthsFromTo (12 * (maxD.year + 1)) (minD.year, minD.month) (maxD.year, maxD.month)

/-- The source's renderCalendars: derive the month range, then lay the
calendars out.  An empty range yields no output lines, matching the
source's early return. -/
def renderCalendars (pc : PostCounts) (showCounts : Bool)
    (monthFilter : Option (Nat × Nat)) (today : Date) (terminalWidth : Nat) :
    List String :=
  renderCalendarGridLines (renderCalendarsMonths pc monthFilter) pc showCounts today terminalWidth

/-- The dispatch in main after aggregation: an empty index prints the
informational no-posts message and returns without rendering (none);
otherwise the calendar lines are rendered. -/
def mainRender (pc : PostCounts) (showCounts : Bool)
    (monthFilter : Option (Nat × Nat)) (today : Date) (terminalWidth : Nat) :
    Option (List String) :=
  if pc.length = 0 then none
  else some (renderCalendars pc showCounts monthFilter today terminalWidth)

/-! ## Argument parsing (source: parseArgs) -/

/-- The source's Config: project path, body filter text, count display
flag, and the optional explicit month kept in its YYYY-MM string form. -/
structure Config where
  projectPath : String
  filterText : String
  showCounts : Bool
  month : Option String
deriving DecidableEq

/-- Zero value of Config, as Go allocates it. -/
def defaultConfig : Config :=
  { projectPath := "", filterText := "", showCounts := false, month := none }

/-- Validity of a YYYY-MM month string; models time.Parse with layout
2006-01 succeeding: four year digits, a dash, and a two-digit month
between 01 and 12. -/
def validMonthStr (s : String) : Bool :=
  match s.data with
  | [y1, y2, y3, y4, sep, m1, m2] =>
      y1.isDigit && y2.isDigit && y3.isDigit && y4.isDigit &&
        sep == '-' && m1.isDigit && m2.isDigit &&
        (let mv := (m1.toNat - 48) * 10 + (m2.toNat - 48)
         decide (1 ≤ mv) && decide (mv ≤ 12))
  | _ => false

/-- The source's flag loop.  nowMonth is the current month formatted as
YYYY-MM (the loop reads it from the clock when -m has no value).  none
models the loop's error returns; value-taking flags consume the next
argument, -m without a usable next argument falls back to nowMonth and
leaves the next argument for the following iteration. -/
def parseArgsLoop (nowMonth : String) : List String → Config → Option Config
  | [], c => some c
  | arg :: rest, c =>
      if arg = "-f" ∨ arg = "--filter" then
        match rest with
        | [] => none
        | v :: rest2 => parseArgsLoop nowMonth rest2 { c with filterText := v }
      else if arg = "-c" ∨ arg = "--counts" then
        parseArgsLoop nowMonth rest { c with showCounts := true }
      else if arg = "-m" ∨ arg = "--month" then
        match rest with
        | [] => parseArgsLoop nowMonth [] { c with month := some nowMonth }
        | v :: rest2 =>
            if strHasPrefix v "-" then
              parseArgsLoop nowMonth (v :: rest2) { c with month := some nowMonth }
            else
              parseArgsLoop nowMonth rest2 { c with month := some v }
      else if strHasPrefix arg "-" then none
      else if c.projectPath = "" then
        parseArgsLoop nowMonth rest { c with projectPath := arg }
      else none

/-- The source's parseArgs: reject an empty argument list, run the flag
loop, require a project path, and validate the month format when one was
set. -/
def parseArgs (nowMonth : String) (args : List String) : Option Config :=
  if args.length = 0 then none
  else
    match parseArgsLoop nowMonth args defaultConfig with
    | none => none
    | some c =>
        if c.projectPath = "" then none
        else
          match c.month with
          | none => some c
          | some ms => if validMonthStr ms then some c else none

/-! ## Grid structure lemmas -/

/-- Arithmetic range a, a+1, ..., a+n-1, used to state grid facts. -/
def natRange : Nat → Nat → List Nat
  | _, 0 => []
  | a, n + 1 => a :: natRange (a + 1) n

theorem natRange_length (a n : Nat) : (natRange a n).length = n := by
  induction n generalizing a with
  | zero => rfl
  | succ n ih => simp [natRange, ih]

theorem natRange_append (a n k : Nat) :
    natRange a n ++ natRange (a + n) k = natRange a (n + k) := by
  induction n generalizing a with
  | zero => simp [natRange]
  | succ n ih =>
      have h : a + (n + 1) = (a + 1) + n := by omega
      have h2 : n + 1 + k = (n + k) + 1 := by omega
      rw [h, h2]
      simp only [natRange, List.cons_append, ih]

theorem natRange_shift (a n : Nat) :
    natRange (a + 1) n = (natRange a n).map (fun i => i + 1) := by
  induction n generalizing a with
  | zero => rfl
  | succ n ih => simp [natRange, ih]

theorem natRange_getElem (a n i : Nat) :
    (natRange a n)[i]? = if i < n then some (a + i) else none := by
  induction n generalizing a i with
  | zero =>
      rw [if_neg (by omega)]
      simp [natRange]
  | succ n ih =>
      cases i with
      | zero =>
          rw [if_pos (by omega)]
          simp [natRange]
      | succ i =>
          simp only [natRange, List.getElem?_cons_succ, ih]
          by_cases h : i < n
          · rw [if_pos h, if_pos (by omega)]
            congr 1
            omega
          · rw [if_neg h, if_neg (by omega)]

theorem mem_natRange {x a n : Nat} : x ∈ natRange a n ↔ a ≤ x ∧ x < a + n := by
  induction n generalizing a with
  | zero =>
      simp only [natRange, List.not_mem_nil, false_iff, not_and, not_lt]
      omega
  | succ n ih =>
      simp only [natRange, List.mem_cons, ih]
      omega

/-- Closed form of a run of k grid columns starting at day counter day:
day cells while days remain, then padding. -/
def rowTail (y m : Nat) (pc : PostCounts) (today : Date) (D day k : Nat) : List Cell :=
  (natRange day (min k (D + 1 - day))).map (mkCell y m pc today) ++
    List.replicate (k - (D + 1 - day)) Cell.padding

theorem rowTail_length (y m : Nat) (pc : PostCounts) (today : Date) (D day k : Nat) :
    (rowTail y m pc today D day k).length = k := by
  simp [rowTail, natRange_length]
  omega

/-- The column loop of the source on a stretch where the before-month
padding condition can no longer fire (a later row, or columns at or past
the starting weekday): it emits the rowTail closed form and advances the
day counter by the number of day cells emitted. -/
theorem buildRowFrom_past_start (y m : Nat) (pc : PostCounts) (today : Date)
    (weekRow s D : Nat) :
    ∀ k col day, (weekRow ≠ 0 ∨ s ≤ col) →
      buildRowFrom y m pc today weekRow s D k col day =
        (rowTail y m pc today D day k, day + min k (D + 1 - day)) := by
  intro k
  induction k with
  | zero =>
      intro col day _
      simp [buildRowFrom, rowTail, natRange]
  | succ k ih =>
      intro col day h
      have hcond : ¬ (weekRow = 0 ∧ col < s) := by omega
      simp only [buildRowFrom, if_neg hcond]
      by_cases hd : day ≤ D
      · simp only [if_pos hd, ih (col + 1) (day + 1) (by omega)]
        have h2 : D + 1 - (day + 1) = D - day := by omega
        have h3 : min (k + 1) (D + 1 - day) = min k (D - day) + 1 := by omega
        have h4 : (k + 1) - (D + 1 - day) = k - (D - day) := by omega
        refine Prod.ext ?_ ?_
        · simp only [rowTail, h2, h3, h4, natRange, List.map_cons, List.cons_append]
        · simp only [h2, h3]
          omega
      · simp only [if_neg hd, ih (col + 1) day (by omega)]
        have h1 : D + 1 - day = 0 := by omega
        refine Prod.ext ?_ ?_
        · simp only [rowTail, h1, Nat.min_zero, natRange, List.map_nil, List.nil_append,
            Nat.sub_zero, List.replicate_succ]
        · simp only [h1, Nat.min_zero]

/-- The column loop of the source on row 0 starting at a column at or
below the starting weekday: the columns up to s are padding, then the
rowTail closed form of the remaining columns. -/
theorem buildRowFrom_row_zero (y m : Nat) (pc : PostCounts) (today : Date) (s D : Nat) :
    ∀ k col day, col ≤ s →
      buildRowFrom y m pc today 0 s D k col day =
        (List.replicate (min k (s - col)) Cell.padding ++
           rowTail y m pc today D day (k - (s - col)),
         day + min (k - (s - col)) (D + 1 - day)) := by
  intro k
  induction k with
  | zero =>
      intro col day _
      simp [buildRowFrom, rowTail, natRange]
  | succ k ih =>
      intro col day hcol
      by_cases hc : col < s
      · simp only [buildRowFrom, hc, ih (col + 1) day (by omega), if_true, true_and,
          and_true, and_self, eq_self_iff_true]
        have h1 : min (k + 1) (s - col) = min k (s - (col + 1)) + 1 := by omega
        have h2 : (k + 1) - (s - col) = k - (s - (col + 1)) := by omega
        refine Prod.ext ?_ ?_
        · simp only [h1, h2, List.replicate_succ, List.cons_append]
        · simp only [h2]
      · have hcs : s ≤ col := by omega
        rw [buildRowFrom_past_start y m pc today 0 s D (k + 1) col day (Or.inr hcs)]
        have h1 : s - col = 0 := by omega
        simp [h1]

/-- Consecutive full-width rows of the grid starting at day counter day:
row i covers days day + 7i onward. -/
def rowsOf (y m : Nat) (pc : PostCounts) (today : Date) (D day n : Nat) :
    List (List Cell) :=
  (natRange 0 n).map (fun i => rowTail y m pc today D (day + 7 * i) 7)

theorem rowsOf_zero (y m : Nat) (pc : PostCounts) (today : Date) (D day : Nat) :
    rowsOf y m pc today D day 0 = [] := rfl

theorem rowsOf_succ (y m : Nat) (pc : PostCounts) (today : Date) (D day n : Nat) :
    rowsOf y m pc today D day (n + 1) =
      rowTail y m pc today D day 7 :: rowsOf y m pc today D (day + 7) n := by
  show (natRange 0 (n + 1)).map _ = _
  have h0 : natRange 0 (n + 1) = 0 :: natRange 1 n := rfl
  rw [h0, List.map_cons, natRange_shift 0 n, List.map_map]
  have harg : day + 7 * 0 = day := by omega
  rw [harg]
  refine congrArg (rowTail y m pc today D day 7 :: ·) ?_
  refine List.map_congr_left ?_
  intro i _
  show rowTail y m pc today D (day + 7 * (i + 1)) 7 = rowTail y m pc today D (day + 7 + 7 * i) 7
  have : day + 7 * (i + 1) = day + 7 + 7 * i := by omega
  rw [this]

/-- The week-row loop from any non-initial row: with the day counter at
day (at most D) it emits exactly (D - day) / 7 + 1 further rows, in the
rowsOf closed form, for any sufficient fuel. -/
theorem buildGridAux_tail (y m : Nat) (pc : PostCounts) (today : Date) (s D : Nat) :
    ∀ fuel day weekRow, weekRow ≠ 0 → 1 ≤ day → day ≤ D → (D - day) / 7 < fuel →
      buildGridAux y m pc today s D fuel day weekRow =
        rowsOf y m pc today D day ((D - day) / 7 + 1) := by
  intro fuel
  induction fuel with
  | zero =>
      intro day weekRow _ _ _ hf
      omega
  | succ fuel ih =>
      intro day weekRow hw h1 h2 hf
      simp only [buildGridAux,
        buildRowFrom_past_start y m pc today weekRow s D 7 0 day (Or.inl hw)]
      by_cases h7 : D + 1 - day ≤ 7
      · have hmin : min 7 (D + 1 - day) = D + 1 - day := by omega
        rw [if_pos (by omega)]
        have hq : (D - day) / 7 = 0 := by omega
        rw [hq, rowsOf_succ, rowsOf_zero]
      · have hmin : min 7 (D + 1 - day) = 7 := by omega
        rw [if_neg (by omega), hmin]
        rw [ih (day + 7) (weekRow + 1) (by omega) (by omega) (by omega) (by omega)]
        have hq : (D - day) / 7 = ((D - (day + 7)) / 7 + 1) := by omega
        rw [hq]
        conv_rhs => rw [rowsOf_succ]

/-- Closed form of the whole month grid: the first row (leading padding,
then the first days), followed by the remaining rows in rowsOf form. -/
def gridClosed (y m : Nat) (pc : PostCounts) (today : Date) : List (List Cell) :=
  (List.replicate (startWeekday y m) Cell.padding ++
      rowTail y m pc today (daysInMonth y m) 1 (7 - startWeekday y m)) ::
    rowsOf y m pc today (daysInMonth y m) (8 - startWeekday y m)
      ((daysInMonth y m - (8 - startWeekday y m)) / 7 + 1)

theorem startWeekday_lt (y m : Nat) : startWeekday y m < 7 :=
  Nat.mod_lt _ (by omega)

theorem daysInMonth_ge (y m : Nat) : 28 ≤ daysInMonth y m := by
  unfold daysInMonth
  split
  · split <;> omega
  · split <;> omega

theorem daysInMonth_le (y m : Nat) : daysInMonth y m ≤ 31 := by
  unfold daysInMonth
  split
  · split <;> omega
  · split <;> omega

/-- The grid loop terminates by its own break for any fuel of at least
daysInMonth + 1, always producing the same closed-form grid. -/
theorem buildGrid_fuel (y m : Nat) (pc : PostCounts) (today : Date) :
    ∀ fuel, daysInMonth y m + 1 ≤ fuel →
      buildGridAux y m pc today (startWeekday y m) (daysInMonth y m) fuel 1 0 =
        gridClosed y m pc today := by
  have hs : startWeekday y m < 7 := startWeekday_lt y m
  have hD : 28 ≤ daysInMonth y m := daysInMonth_ge y m
  intro fuel hfuel
  match fuel, hfuel with
  | fuel + 1, _ =>
    simp only [buildGridAux,
      buildRowFrom_row_zero y m pc today (startWeekday y m) (daysInMonth y m) 7 0 1
        (by omega), Nat.sub_zero]
    rw [if_neg (by omega)]
    rw [buildGridAux_tail y m pc today (startWeekday y m) (daysInMonth y m) fuel
      (1 + min (7 - startWeekday y m) (daysInMonth y m + 1 - 1)) 1 (by omega)
      (by omega) (by omega) (by omega)]
    have h5 : 1 + min (7 - startWeekday y m) (daysInMonth y m + 1 - 1) =
        8 - startWeekday y m := by omega
    have h1 : min 7 (startWeekday y m) = startWeekday y m := by omega
    rw [h5, h1]
    unfold gridClosed
    rfl

/-- The source's generateCalendarGrid cell structure equals the closed
form. -/
theorem calendarGridCells_eq (y m : Nat) (pc : PostCounts) (today : Date) :
    calendarGridCells y m pc today = gridClosed y m pc today :=
  buildGrid_fuel y m pc today (daysInMonth y m + 1) (by omega)

theorem rowsOf_length (y m : Nat) (pc : PostCounts) (today : Date) (D day n : Nat) :
    (rowsOf y m pc today D day n).length = n := by
  simp [rowsOf, natRange_length]

theorem rowsOf_flatten (y m : Nat) (pc : PostCounts) (today : Date) (D : Nat) :
    ∀ n day, day ≤ D → (D - day) / 7 = n →
      (rowsOf y m pc today D day (n + 1)).flatten =
        (natRange day (D + 1 - day)).map (mkCell y m pc today) ++
          List.replicate (7 * (n + 1) - (D + 1 - day)) Cell.padding := by
  intro n
  induction n with
  | zero =>
      intro day hle hq
      rw [rowsOf_succ, rowsOf_zero]
      have h7 : min 7 (D + 1 - day) = D + 1 - day := by omega
      simp only [List.flatten_cons, List.flatten_nil, List.append_nil, rowTail, h7]
  | succ n ih =>
      intro day hle hq
      rw [rowsOf_succ]
      have hge : 7 ≤ D - day := by omega
      rw [List.flatten_cons, ih (day + 7) (by omega) (by omega)]
      have h7 : min 7 (D + 1 - day) = 7 := by omega
      simp only [rowTail, h7]
      have h0 : 7 - (D + 1 - day) = 0 := by omega
      rw [h0, List.replicate_zero, List.append_nil]
      rw [← List.append_assoc, ← List.map_append]
      have h8 : D + 1 - (day + 7) = (D + 1 - day) - 7 := by omega
      rw [h8]
      have h10 : natRange day 7 ++ natRange (day + 7) ((D + 1 - day) - 7) =
          natRange day (D + 1 - day) := by
        rw [natRange_append]
        congr 1
        omega
      rw [h10]
      have h12 : 7 * (n + 1) - ((D + 1 - day) - 7) = 7 * (n + 1 + 1) - (D + 1 - day) := by
        omega
      rw [h12]

/-- Flat cell sequence of the whole grid: leading padding up to the
starting weekday, one day cell per day of the month in order, trailing
padding to fill the last row. -/
theorem gridClosed_flatten (y m : Nat) (pc : PostCounts) (today : Date) :
    (gridClosed y m pc today).flatten =
      List.replicate (startWeekday y m) Cell.padding ++
        (natRange 1 (daysInMonth y m)).map (mkCell y m pc today) ++
        List.replicate
          (7 * ((startWeekday y m + daysInMonth y m + 6) / 7) -
            (startWeekday y m + daysInMonth y m)) Cell.padding := by
  have hs : startWeekday y m < 7 := startWeekday_lt y m
  have hD : 28 ≤ daysInMonth y m := daysInMonth_ge y m
  unfold gridClosed
  rw [List.flatten_cons,
    rowsOf_flatten y m pc today (daysInMonth y m)
      ((daysInMonth y m - (8 - startWeekday y m)) / 7) (8 - startWeekday y m)
      (by omega) rfl]
  simp only [rowTail]
  have h1 : min (7 - startWeekday y m) (daysInMonth y m + 1 - 1) =
      7 - startWeekday y m := by omega
  have h2 : (7 - startWeekday y m) - (daysInMonth y m + 1 - 1) = 0 := by omega
  rw [h1, h2, List.replicate_zero, List.append_nil]
  simp only [List.append_assoc]
  congr 1
  rw [← List.append_assoc, ← List.map_append]
  have h3 : natRange 1 (7 - startWeekday y m) ++
      natRange (8 - startWeekday y m) (daysInMonth y m + 1 - (8 - startWeekday y m)) =
      natRange 1 (daysInMonth y m) := by
    have h4 : (8 : Nat) - startWeekday y m = 1 + (7 - startWeekday y m) := by omega
    rw [h4, natRange_append]
    congr 1
    omega
  rw [h3]
  have h6 : 7 * ((daysInMonth y m - (8 - startWeekday y m)) / 7 + 1) -
      (daysInMonth y m + 1 - (8 - startWeekday y m)) =
      7 * ((startWeekday y m + daysInMonth y m + 6) / 7) -
        (startWeekday y m + daysInMonth y m) := by omega
  rw [h6]

/-- Row count of the grid: the ceiling of (startWeekday + daysInMonth)/7. -/
theorem gridClosed_length (y m : Nat) (pc : PostCounts) (today : Date) :
    (gridClosed y m pc today).length =
      (startWeekday y m + daysInMonth y m + 6) / 7 := by
  have hs : startWeekday y m < 7 := startWeekday_lt y m
  have hD : 28 ≤ daysInMonth y m := daysInMonth_ge y m
  unfold gridClosed
  rw [List.length_cons, rowsOf_length]
  omega

/-- Reading a flat cell index of a uniform-width grid through row and
column indices. -/
theorem flatten_getElem_uniform (g : List (List Cell))
    (h7 : ∀ row ∈ g, row.length = 7) :
    ∀ i, g.flatten[i]? = (g[i / 7]?).bind (fun row => row[i % 7]?) := by
  induction g with
  | nil => intro i; simp
  | cons row rest ih =>
      intro i
      have hr : row.length = 7 := h7 row (by simp)
      rw [List.flatten_cons, List.getElem?_append, hr]
      by_cases hi : i < 7
      · have h0 : i / 7 = 0 := by omega
        have h1 : i % 7 = i := by omega
        rw [if_pos hi, h0, h1, List.getElem?_cons_zero, Option.some_bind]
      · rw [if_neg hi, ih (fun r hr2 => h7 r (List.mem_cons_of_mem _ hr2)) (i - 7)]
        have h1 : i / 7 = (i - 7) / 7 + 1 := by omega
        have h2 : (i - 7) % 7 = i % 7 := by omega
        rw [h2, h1, List.getElem?_cons_succ]

/-- The cell at flat index i of the month grid: padding below the
starting weekday, day i - s + 1 through the end of the month, padding to
the end of the last row, nothing beyond. -/
theorem gridFlat_getElem (y m : Nat) (pc : PostCounts) (today : Date) (i : Nat) :
    (gridClosed y m pc today).flatten[i]? =
      if i < startWeekday y m then some Cell.padding
      else if i < startWeekday y m + daysInMonth y m then
        some (mkCell y m pc today (i - startWeekday y m + 1))
      else if i < 7 * ((startWeekday y m + daysInMonth y m + 6) / 7) then
        some Cell.padding
      else none := by
  have hs : startWeekday y m < 7 := startWeekday_lt y m
  have hD : 28 ≤ daysInMonth y m := daysInMonth_ge y m
  rw [gridClosed_flatten, List.getElem?_append, List.length_append,
    List.length_replicate, List.length_map, natRange_length]
  by_cases hi1 : i < startWeekday y m
  · rw [if_pos (by omega), List.getElem?_append, List.length_replicate, if_pos hi1,
      List.getElem?_replicate, if_pos hi1, if_pos hi1]
  · by_cases hi2 : i < startWeekday y m + daysInMonth y m
    · rw [if_pos (by omega), List.getElem?_append, List.length_replicate, if_neg hi1,
        List.getElem?_map, natRange_getElem, if_pos (by omega), if_neg hi1, if_pos hi2]
      have h1 : 1 + (i - startWeekday y m) = i - startWeekday y m + 1 := by omega
      rw [h1]
      rfl
    · rw [if_neg (by omega), List.getElem?_replicate, if_neg hi1, if_neg hi2]
      by_cases hi3 : i < 7 * ((startWeekday y m + daysInMonth y m + 6) / 7)
      · rw [if_pos (by omega), if_pos hi3]
      · rw [if_neg (by omega), if_neg hi3]

/-- The rata-die number is linear in the day within a month. -/
theorem rataDie_day_shift (y m d : Nat) (hd : 1 ≤ d) :
    rataDie y m d = rataDie y m 1 + (d - 1) := by
  unfold rataDie dayOfYear
  split <;> omega

/-- Every row of the grid has exactly 7 cells. -/
theorem gridClosed_row_length (y m : Nat) (pc : PostCounts) (today : Date) :
    ∀ row ∈ gridClosed y m pc today, row.length = 7 := by
  have hs : startWeekday y m < 7 := startWeekday_lt y m
  have hD : 28 ≤ daysInMonth y m := daysInMonth_ge y m
  intro row hrow
  unfold gridClosed at hrow
  rcases List.mem_cons.mp hrow with h | h
  · subst h
    rw [List.length_append, List.length_replicate, rowTail_length]
    omega
  · rcases List.mem_map.mp h with ⟨i, _, hi⟩
    rw [← hi, rowTail_length]

theorem calendarGrid_row_length (y m : Nat) (pc : PostCounts) (today : Date) :
    ∀ row ∈ calendarGridCells y m pc today, row.length = 7 := by
  rw [calendarGridCells_eq]
  exact gridClosed_row_length y m pc today

/-! ## Claim theorems: grid shape and placement -/

/-- C2: for every (year, month) input, the grid produced by
generateCalendarGrid has exactly ceil((startWeekday + daysInMonth) / 7)
rows, where startWeekday is the weekday of day 1 (0 = Sunday) and
daysInMonth is the leap-year-correct day count, and every row contains
exactly 7 cells. -/
theorem C2_grid_shape (y m : Nat) (pc : PostCounts) (today : Date) :
    (calendarGridCells y m pc today).length =
      (startWeekday y m + daysInMonth y m + 6) / 7 ∧
    ∀ row ∈ calendarGridCells y m pc today, row.length = 7 := by
  rw [calendarGridCells_eq]
  exact ⟨gridClosed_length y m pc today, gridClosed_row_length y m pc today⟩

theorem C2_grid_shape_witness :
    (calendarGridCells 2024 2 [] (Date.mk 2024 3 1)).length =
      (startWeekday 2024 2 + daysInMonth 2024 2 + 6) / 7 ∧
    ((calendarGridCells 2024 2 [] (Date.mk 2024 3 1)).headD []).length = 7 :=
  ⟨(C2_grid_shape 2024 2 [] (Date.mk 2024 3 1)).1,
   (C2_grid_shape 2024 2 [] (Date.mk 2024 3 1)).2 _ (by decide)⟩

/-- C8: for every (year, month) input the grid-construction loop of
generateCalendarGrid terminates — any fuel of at least daysInMonth + 1
gives the same grid, i.e. the loop stops by its own break once the day
counter exceeds the month's day count on a completed row — and the
returned grid always contains at least one row. -/
theorem C8_loop_terminates (y m : Nat) (pc : PostCounts) (today : Date) :
    1 ≤ (calendarGridCells y m pc today).length ∧
    ∀ extra, buildGridAux y m pc today (startWeekday y m) (daysInMonth y m)
        (daysInMonth y m + 1 + extra) 1 0 = calendarGridCells y m pc today := by
  constructor
  · rw [calendarGridCells_eq]
    unfold gridClosed
    simp
  · intro extra
    rw [buildGrid_fuel y m pc today _ (by omega), calendarGridCells_eq]

/-- C3: for every (year, month) input and every day d from 1 to
daysInMonth, d is placed in exactly one cell of the grid; that cell sits
at row (startWeekday + d - 1) / 7, column (startWeekday + d - 1) % 7,
and the column index equals d's weekday with Sunday mapped to 0; all
cells before day 1 in row 0 and after the last day in the final row are
padding cells. -/
theorem C3_day_placement (y m : Nat) (pc : PostCounts) (today : Date) (d : Nat)
    (hd1 : 1 ≤ d) (hd2 : d ≤ daysInMonth y m) :
    (∃ row, (calendarGridCells y m pc today)[(startWeekday y m + d - 1) / 7]? = some row ∧
       row[(startWeekday y m + d - 1) % 7]? = some (mkCell y m pc today d)) ∧
    (startWeekday y m + d - 1) % 7 = weekday y m d ∧
    (∀ (i cnt : Nat) (t : Bool), (calendarGridCells y m pc today).flatten[i]? = some (Cell.day d cnt t) →
       i = startWeekday y m + d - 1) ∧
    (∀ i : Nat, i < startWeekday y m →
       (calendarGridCells y m pc today).flatten[i]? = some Cell.padding) ∧
    (∀ i : Nat, startWeekday y m + daysInMonth y m ≤ i →
       i < 7 * ((startWeekday y m + daysInMonth y m + 6) / 7) →
       (calendarGridCells y m pc today).flatten[i]? = some Cell.padding) := by
  have hs : startWeekday y m < 7 := startWeekday_lt y m
  have hD : 28 ≤ daysInMonth y m := daysInMonth_ge y m
  have hflat : ∀ i : Nat, (calendarGridCells y m pc today).flatten[i]? =
      (gridClosed y m pc today).flatten[i]? := by
    intro i
    rw [calendarGridCells_eq]
  refine ⟨?_, ?_, ?_, ?_, ?_⟩
  · have hpos : (calendarGridCells y m pc today).flatten[startWeekday y m + d - 1]? =
        some (mkCell y m pc today d) := by
      rw [hflat, gridFlat_getElem, if_neg (by omega), if_pos (by omega)]
      have : startWeekday y m + d - 1 - startWeekday y m + 1 = d := by omega
      rw [this]
    rw [flatten_getElem_uniform _ (calendarGrid_row_length y m pc today)] at hpos
    exact Option.bind_eq_some.mp hpos
  · have h1 : weekday y m d = (rataDie y m 1 + (d - 1)) % 7 := by
      unfold weekday
      rw [rataDie_day_shift y m d hd1]
    rw [h1]
    show (rataDie y m 1 % 7 + d - 1) % 7 = _
    omega
  · intro i cnt t hsome
    rw [hflat, gridFlat_getElem] at hsome
    by_cases hi1 : i < startWeekday y m
    · rw [if_pos hi1] at hsome
      exact absurd (Option.some.inj hsome) (by simp)
    · by_cases hi2 : i < startWeekday y m + daysInMonth y m
      · rw [if_neg hi1, if_pos hi2] at hsome
        have := Option.some.inj hsome
        unfold mkCell at this
        have hd := (Cell.day.injEq _ _ _ _ _ _).mp this.symm
        omega
      · rw [if_neg hi1, if_neg hi2] at hsome
        by_cases hi3 : i < 7 * ((startWeekday y m + daysInMonth y m + 6) / 7)
        · rw [if_pos hi3] at hsome
          exact absurd (Option.some.inj hsome) (by simp)
        · rw [if_neg hi3] at hsome
          exact absurd hsome (by simp)
  · intro i hi
    rw [hflat, gridFlat_getElem, if_pos hi]
  · intro i hlo hhi
    rw [hflat, gridFlat_getElem, if_neg (by omega), if_neg (by omega), if_pos hhi]

theorem C3_day_placement_witness :
    ((calendarGridCells 2024 2 [] (Date.mk 2024 3 1))[(startWeekday 2024 2 + 29 - 1) / 7]?).isSome ∧
    (startWeekday 2024 2 + 29 - 1) % 7 = weekday 2024 2 29 := by
  have h := C3_day_placement 2024 2 [] (Date.mk 2024 3 1) 29 (by decide) (by decide)
  refine ⟨?_, h.2.1⟩
  rcases h.1 with ⟨row, hrow, _⟩
  rw [hrow]
  rfl

/-! ## Claim theorems: cell presentation -/

/-- Every cell of a grid row is either padding or the day cell the
source constructs for some day of the month. -/
theorem grid_cell_cases (y m : Nat) (pc : PostCounts) (today : Date) (row : List Cell)
    (cell : Cell) (hrow : row ∈ calendarGridCells y m pc today) (hcell : cell ∈ row) :
    cell = Cell.padding ∨
      ∃ d, 1 ≤ d ∧ d ≤ daysInMonth y m ∧ cell = mkCell y m pc today d := by
  have hmem : cell ∈ (calendarGridCells y m pc today).flatten :=
    List.mem_flatten.mpr ⟨row, hrow, hcell⟩
  rw [calendarGridCells_eq, gridClosed_flatten] at hmem
  rcases List.mem_append.mp hmem with h | h
  · rcases List.mem_append.mp h with h2 | h2
    · exact Or.inl (List.eq_of_mem_replicate h2)
    · rcases List.mem_map.mp h2 with ⟨d, hd, hcd⟩
      have hr := mem_natRange.mp hd
      exact Or.inr ⟨d, by omega, by omega, hcd.symm⟩
  · exact Or.inl (List.eq_of_mem_replicate h)

/-- Style selection of a day cell in closed form: isToday always wins,
otherwise a positive count selects the active style. -/
theorem renderDayCell_style (sc : Bool) (day cnt : Nat) (t : Bool) :
    (renderDayCell sc day cnt t).1 =
      if t then CellStyle.today
      else if cnt > 0 then CellStyle.active else CellStyle.neutral := by
  unfold renderDayCell
  cases sc <;> by_cases hc : cnt > 0 <;> cases t <;> simp [hc]

/-- Printed text of a day cell in closed form. -/
theorem renderDayCell_text (sc : Bool) (day cnt : Nat) (t : Bool) :
    (renderDayCell sc day cnt t).2 =
      if sc then (if cnt > 0 then fmt2d cnt else " 0") else fmt2d day := by
  unfold renderDayCell
  cases sc <;> by_cases hc : cnt > 0 <;> cases t <;> simp [hc]

/-- C6: for every cell of the grid whose civil date equals the run's
current date, the rendered presentation is the today presentation
regardless of the cell's activity count, in both display modes; cells
that are not today get the activity presentation iff count > 0, else the
neutral presentation. -/
theorem C6_today_precedence (y m : Nat) (pc : PostCounts) (today : Date) (sc : Bool)
    (row : List Cell) (cell : Cell) (d cnt : Nat) (t : Bool)
    (hrow : row ∈ calendarGridCells y m pc today) (hcell : cell ∈ row)
    (hday : cell = Cell.day d cnt t) :
    (t = true ↔ Date.mk y m d = today) ∧
    (Date.mk y m d = today → (renderDayCell sc d cnt t).1 = CellStyle.today) ∧
    (Date.mk y m d ≠ today →
      (renderDayCell sc d cnt t).1 =
        if cnt > 0 then CellStyle.active else CellStyle.neutral) := by
  rcases grid_cell_cases y m pc today row cell hrow hcell with h | ⟨d2, _, _, h⟩
  · rw [h] at hday
    exact absurd hday (by simp)
  · rw [h] at hday
    unfold mkCell at hday
    have hd : d2 = d := ((Cell.day.injEq _ _ _ _ _ _).mp hday).1
    have ht : decide (Date.mk y m d2 = today) = t :=
      ((Cell.day.injEq _ _ _ _ _ _).mp hday).2.2
    subst hd
    refine ⟨?_, ?_, ?_⟩
    · rw [← ht]
      simp
    · intro htoday
      rw [renderDayCell_style, ← ht, htoday]
      simp
    · intro htoday
      rw [renderDayCell_style, ← ht]
      simp [htoday]

theorem C6_today_precedence_witness :
    (true = true ↔ Date.mk 2024 1 15 = Date.mk 2024 1 15) ∧
    (Date.mk 2024 1 15 = Date.mk 2024 1 15 →
      (renderDayCell true 15 3 true).1 = CellStyle.today) ∧
    (Date.mk 2024 1 15 ≠ Date.mk 2024 1 15 →
      (renderDayCell true 15 3 true).1 =
        if 3 > 0 then CellStyle.active else CellStyle.neutral) :=
  C6_today_precedence 2024 1 [(Date.mk 2024 1 15, 3)] (Date.mk 2024 1 15) true
    ((calendarGridCells 2024 1 [(Date.mk 2024 1 15, 3)] (Date.mk 2024 1 15)).getD 2 [])
    (Cell.day 15 3 true) 15 3 true (by decide) (by decide) rfl

/-! ## Claim theorems: printed line widths -/

theorem fmt2d_length (n : Nat) (h : n ≤ 99) : (fmt2d n).length = 2 := by
  have hall : ∀ k : Nat, k < 100 → (fmt2d k).length = 2 := by decide
  exact hall n (by omega)

theorem renderDayCell_text_length (sc : Bool) (day cnt : Nat) (t : Bool)
    (hday : day ≤ 99) (hcnt : cnt ≤ 99) :
    ((renderDayCell sc day cnt t).2).length = 2 := by
  rw [renderDayCell_text]
  cases sc
  · simpa using fmt2d_length day hday
  · by_cases hc : cnt > 0
    · simpa [hc] using fmt2d_length cnt hcnt
    · simp [hc]
      rfl

theorem joinSep_space_length (l : List String) (h : ∀ x ∈ l, x.length = 2) :
    (joinSep " " l).length = if l.length = 0 then 0 else 3 * l.length - 1 := by
  induction l with
  | nil => rfl
  | cons x xs ih =>
      cases xs with
      | nil =>
          have hx := h x (by simp)
          show x.length = _
          simp [hx]
      | cons y ys =>
          show (x ++ " " ++ joinSep " " (y :: ys)).length = _
          rw [String.length_append, String.length_append,
            ih (fun z hz => h z (List.mem_cons_of_mem _ hz))]
          have hx := h x (by simp)
          have hlen : (y :: ys).length = ys.length + 1 := rfl
          simp only [hlen]
          have h1 : (" " : String).length = 1 := rfl
          rw [hx, h1]
          simp only [List.length_cons]
          rw [if_neg (by omega : ¬ (ys.length + 1 = 0)),
            if_neg (by omega : ¬ (ys.length + 1 + 1 = 0))]
          omega

/-- C9 counterexample: with a stored count of 100 and count display mode
on, Go's %2d prints three characters and the grid line grows to 21
visible characters, so not every line has exactly 20. -/
theorem C9_counterexample :
    ((generateCalendarGrid 2024 1 [(Date.mk 2024 1 5, 100)] (Date.mk 2023 1 1) true).headD "")
        ∈ generateCalendarGrid 2024 1 [(Date.mk 2024 1 5, 100)] (Date.mk 2023 1 1) true ∧
    ((generateCalendarGrid 2024 1 [(Date.mk 2024 1 5, 100)] (Date.mk 2023 1 1) true).headD "").length
        ≠ 20 := by
  constructor
  · decide
  · decide

/-- C9 (amended): when every stored count is at most 99 — counts of 100
or more overflow the 2-character field, a display limitation the spec
itself notes — every grid line produced by generateCalendarGrid has
exactly 20 characters of visible content (7 two-character cells joined
by single spaces), and the blank filler line used for shorter grids in a
display row is exactly 20 spaces. -/
theorem C9_line_length (y m : Nat) (pc : PostCounts) (today : Date) (sc : Bool)
    (hcap : ∀ dt : Date, lookupCount pc dt ≤ 99) :
    (∀ line ∈ generateCalendarGrid y m pc today sc, line.length = 20) ∧
    blankLine.length = 20 := by
  constructor
  · intro line hline
    rcases List.mem_map.mp hline with ⟨row, hrow, hl⟩
    rw [← hl]
    unfold rowLine
    have hcells : ∀ x ∈ row.map (cellText sc), x.length = 2 := by
      intro x hx
      rcases List.mem_map.mp hx with ⟨cell, hcell, hcx⟩
      rw [← hcx]
      rcases grid_cell_cases y m pc today row cell hrow hcell with h | ⟨d, hd1, hd2, h⟩
      · rw [h]
        rfl
      · rw [h]
        unfold mkCell cellText
        have hd31 : d ≤ 99 := by
          have := daysInMonth_le y m
          omega
        exact renderDayCell_text_length sc d _ _ hd31 (hcap (Date.mk y m d))
    rw [joinSep_space_length _ hcells]
    have h7 : row.length = 7 := calendarGrid_row_length y m pc today row hrow
    rw [List.length_map, h7]
    rfl
  · rfl

theorem C9_line_length_witness :
    ((generateCalendarGrid 2024 1 [] (Date.mk 2023 1 1) false).headD "").length = 20 ∧
    blankLine.length = 20 := by
  have hcap : ∀ dt : Date, lookupCount ([] : PostCounts) dt ≤ 99 := by
    intro dt
    have h0 : lookupCount ([] : PostCounts) dt = 0 := rfl
    omega
  exact ⟨(C9_line_length 2024 1 [] (Date.mk 2023 1 1) false hcap).1 _ (by decide),
    (C9_line_length 2024 1 [] (Date.mk 2023 1 1) false hcap).2⟩

/-! ## Claim theorems: aggregation -/

theorem lookupCount_nil (d : Date) : lookupCount [] d = 0 := rfl

theorem lookupCount_cons (k : Date) (v : Nat) (rest : PostCounts) (d : Date) :
    lookupCount ((k, v) :: rest) d = if d = k then v else lookupCount rest d := by
  unfold lookupCount
  rw [List.lookup]
  by_cases h : d = k
  · simp [h]
  · have hb : (d == k) = false := by simp [h]
    rw [hb, if_neg h]

theorem lookupCount_increment (pc : PostCounts) (k d : Date) :
    lookupCount (incrementCount pc k) d =
      lookupCount pc d + (if k = d then 1 else 0) := by
  induction pc with
  | nil =>
      show lookupCount [(k, 1)] d = lookupCount [] d + _
      rw [lookupCount_cons, lookupCount_nil]
      by_cases h : d = k
      · rw [if_pos h, if_pos h.symm]
      · rw [if_neg h, if_neg (fun hh => h hh.symm)]
  | cons e rest ih =>
      rcases e with ⟨k2, v2⟩
      show lookupCount (if k2 = k then (k2, v2 + 1) :: rest
            else (k2, v2) :: incrementCount rest k) d = _
      by_cases h : k2 = k
      · rw [if_pos h, lookupCount_cons, lookupCount_cons]
        by_cases h2 : d = k2
        · rw [if_pos h2, if_pos h2, if_pos (h.symm.trans h2.symm)]
        · rw [if_neg h2, if_neg h2, if_neg (fun hh => h2 (hh.symm.trans h.symm))]
          rfl
      · rw [if_neg h, lookupCount_cons, lookupCount_cons, ih]
        by_cases h2 : d = k2
        · rw [if_pos h2, if_pos h2, if_neg (fun hh => h ((hh.trans h2).symm))]
          rfl
        · rw [if_neg h2, if_neg h2]

/-- Eligibility of a record under the source's skip rules. -/
def eligibleRecord (filterText : String) (r : PostRecord) : Bool :=
  !r.draft && !(decide (filterText ≠ "") && strContains r.body filterText)

theorem parsePostsAndCount_loop (ft : String) (records : List PostRecord)
    (pc : PostCounts) (d : Date) :
    lookupCount (records.foldl
      (fun pc r =>
        if r.draft then pc
        else if ft ≠ "" && strContains r.body ft then pc
        else incrementCount pc r.date) pc) d =
      lookupCount pc d +
        records.countP (fun r => eligibleRecord ft r && decide (r.date = d)) := by
  induction records generalizing pc with
  | nil => simp
  | cons r rs ih =>
      rw [List.foldl_cons, ih, List.countP_cons]
      by_cases hdraft : r.draft = true
      · simp [hdraft, eligibleRecord]
      · have h1 : r.draft = false := by
          cases hc : r.draft
          · rfl
          · exact absurd hc hdraft
        by_cases hfilt : (ft ≠ "" ∧ strContains r.body ft = true)
        · have hpr : (eligibleRecord ft r && decide (r.date = d)) = false := by
            simp [eligibleRecord, h1, hfilt.1, hfilt.2]
          rw [if_neg hdraft,
            if_pos (show (decide (ft ≠ "") && strContains r.body ft) = true by
              simp [hfilt.1, hfilt.2]), hpr]
          simp
        · have hX : (decide (ft ≠ "") && strContains r.body ft) = false := by
            rcases not_and_or.mp hfilt with hc | hc
            · have he : ft = "" := not_not.mp hc
              simp [he]
            · have he : strContains r.body ft = false := by
                cases hcc : strContains r.body ft
                · rfl
                · exact absurd hcc hc
              simp [he]
          have hcf : ¬ ft = "" → strContains r.body ft = false := by
            intro hf
            cases hcc : strContains r.body ft
            · rfl
            · rw [hcc] at hX
              simp [hf] at hX
          have hpr : (eligibleRecord ft r && decide (r.date = d)) = decide (r.date = d) := by
            simp [eligibleRecord, h1, hX]
            intro _
            by_cases hf : ft = ""
            · exact Or.inl hf
            · exact Or.inr (hcf hf)
          rw [if_neg hdraft, if_neg (by simp [hX]; exact hcf), lookupCount_increment, hpr]
          by_cases hd : r.date = d
          · rw [if_pos hd, if_pos (by simp [hd])]
            omega
          · rw [if_neg hd, if_neg (by simp [hd])]
            omega

/-- Per-date counts of the aggregation equal the eligible-record count
for that date, independent of input order. -/
theorem parsePostsAndCount_counts (ft : String) (records : List PostRecord) (d : Date) :
    lookupCount (parsePostsAndCount ft records) d =
      records.countP (fun r => eligibleRecord ft r && decide (r.date = d)) := by
  unfold parsePostsAndCount
  rw [parsePostsAndCount_loop, lookupCount_nil, Nat.zero_add]

/-- C5: DateIndex construction is order-independent — for every set of
document records (date, draft flag, body), any two orders of the same
records yield the same final per-date counts — and multiple eligible
records on the same day-precision date accumulate by increment: two
non-draft records dated 2024-01-05 yield count 2 at that date. -/
theorem C5_aggregation_commutative :
    (∀ (ft : String) (l l2 : List PostRecord), l.Perm l2 →
      ∀ d : Date, lookupCount (parsePostsAndCount ft l) d =
        lookupCount (parsePostsAndCount ft l2) d) ∧
    lookupCount (parsePostsAndCount ""
        [{ date := Date.mk 2024 1 5, draft := false, body := "first post" },
         { date := Date.mk 2024 1 5, draft := false, body := "second post" }])
      (Date.mk 2024 1 5) = 2 := by
  constructor
  · intro ft l l2 hperm d
    rw [parsePostsAndCount_counts, parsePostsAndCount_counts, hperm.countP_eq]
  · decide

theorem C5_aggregation_commutative_witness :
    lookupCount (parsePostsAndCount ""
        [{ date := Date.mk 2024 1 5, draft := false, body := "first post" },
         { date := Date.mk 2024 1 6, draft := false, body := "second post" }])
      (Date.mk 2024 1 5) =
    lookupCount (parsePostsAndCount ""
        [{ date := Date.mk 2024 1 6, draft := false, body := "second post" },
         { date := Date.mk 2024 1 5, draft := false, body := "first post" }])
      (Date.mk 2024 1 5) :=
  C5_aggregation_commutative.1 "" _ _ (List.Perm.swap _ _ _) (Date.mk 2024 1 5)

/-! ## Claim theorems: display-row width -/

theorem calendarsPerRow_pos (w : Nat) : 1 ≤ calendarsPerRow w := by
  show 1 ≤ (if w / 22 < 1 then 1 else w / 22)
  split <;> omega

theorem chunksAux_flatten {α : Type} (cpr : Nat) (hcpr : 1 ≤ cpr) :
    ∀ (fuel : Nat) (l : List α), l.length ≤ fuel →
      (chunksAux cpr fuel l).flatten = l := by
  intro fuel
  induction fuel with
  | zero =>
      intro l h
      cases l with
      | nil => rfl
      | cons x xs => simp at h
  | succ fuel ih =>
      intro l h
      cases l with
      | nil => rfl
      | cons x xs =>
          show (List.take cpr (x :: xs) :: chunksAux cpr fuel (List.drop cpr (x :: xs))).flatten
              = x :: xs
          have hlen : (List.drop cpr (x :: xs)).length ≤ fuel := by
            rw [List.length_drop]
            simp only [List.length_cons] at h ⊢
            omega
          rw [List.flatten_cons, ih _ hlen]
          exact List.take_append_drop cpr (x :: xs)

theorem chunksAux_mem {α : Type} (cpr : Nat) (hcpr : 1 ≤ cpr) :
    ∀ (fuel : Nat) (l : List α) (c : List α), c ∈ chunksAux cpr fuel l →
      c ≠ [] ∧ c.length ≤ cpr := by
  intro fuel
  induction fuel with
  | zero =>
      intro l c hc
      simp [chunksAux] at hc
  | succ fuel ih =>
      intro l c hc
      cases l with
      | nil => simp [chunksAux] at hc
      | cons x xs =>
          rcases List.mem_cons.mp hc with h | h
          · subst h
            constructor
            · have : (List.take cpr (x :: xs)).length = min cpr (xs.length + 1) := by
                simp [List.length_take]
              intro hnil
              rw [hnil] at this
              simp at this
              omega
            · exact List.length_take_le cpr (x :: xs)
          · exact ih _ c h

/-- C7: for every available terminal width w (including widths below 22
and the non-interactive fallback width 80), the per-display-row calendar
capacity equals max(1, floor(w / 22)); the display rows hold every month
exactly once with at most that many (and at least one) per row, so
rendering never fails for small widths; w = 30 yields exactly one
calendar per display row. -/
theorem C7_calendars_per_row :
    (∀ w : Nat, calendarsPerRow w = max 1 (w / 22)) ∧
    calendarsPerRow 30 = 1 ∧
    calendarsPerRow fallbackWidth = 3 ∧
    (∀ (w : Nat) (months : List (Nat × Nat)),
      (monthChunks (calendarsPerRow w) months).flatten = months) ∧
    (∀ (w : Nat) (months : List (Nat × Nat)) (c : List (Nat × Nat)),
      c ∈ monthChunks (calendarsPerRow w) months →
        c ≠ [] ∧ c.length ≤ calendarsPerRow w) ∧
    (∀ (months : List (Nat × Nat)) (c : List (Nat × Nat)),
      c ∈ monthChunks 1 months → c.length = 1) := by
  refine ⟨?_, by decide, by decide, ?_, ?_, ?_⟩
  · intro w
    show (if w / 22 < 1 then 1 else w / 22) = max 1 (w / 22)
    split <;> omega
  · intro w months
    exact chunksAux_flatten _ (calendarsPerRow_pos w) _ _ (Nat.le_refl _)
  · intro w months c hc
    exact chunksAux_mem _ (calendarsPerRow_pos w) _ _ c hc
  · intro months c hc
    have h := chunksAux_mem 1 (Nat.le_refl 1) _ _ c hc
    rcases h with ⟨hne, hle⟩
    cases c with
    | nil => exact absurd rfl hne
    | cons a as =>
        simp at hle
        simp [hle]

/-! ## Claim theorems: month range -/

theorem dateBefore_iff (a b : Date) :
    dateBefore a b = true ↔
      a.year < b.year ∨ (a.year = b.year ∧ (a.month < b.month ∨
        (a.month = b.month ∧ a.day < b.day))) := by
  unfold dateBefore
  simp [Bool.or_eq_true, Bool.and_eq_true, decide_eq_true_iff]

theorem dateBefore_false_iff (a b : Date) :
    dateBefore a b = false ↔
      ¬(a.year < b.year ∨ (a.year = b.year ∧ (a.month < b.month ∨
        (a.month = b.month ∧ a.day < b.day)))) := by
  rw [← dateBefore_iff]
  cases dateBefore a b <;> simp

/-- The source's min fold over the index keys returns a key that is not
after any key (it is the minimum date). -/
theorem spanMinDate_spec (d0 : Date) (dates : List Date) :
    (spanMinDate d0 dates = d0 ∨ spanMinDate d0 dates ∈ dates) ∧
    dateBefore d0 (spanMinDate d0 dates) = false ∧
    ∀ d ∈ dates, dateBefore d (spanMinDate d0 dates) = false := by
  unfold spanMinDate
  induction dates generalizing d0 with
  | nil =>
      simp only [List.foldl_nil]
      refine ⟨Or.inl (by simp), ?_, ?_⟩
      · rw [dateBefore_false_iff]
        omega
      · intro d hd
        simp at hd
  | cons d rest ih =>
      rw [List.foldl_cons]
      by_cases hbd : dateBefore d d0 = true
      · rw [if_pos hbd]
        rcases ih d with ⟨hmem, hstart, hall⟩
        rw [dateBefore_iff] at hbd
        refine ⟨?_, ?_, ?_⟩
        · rcases hmem with h | h
          · refine Or.inr ?_
            rw [h]
            exact List.mem_cons_self d rest
          · exact Or.inr (List.mem_cons_of_mem d h)
        · rw [dateBefore_false_iff] at hstart ⊢
          omega
        · intro x hx
          rcases List.mem_cons.mp hx with h | h
          · subst h
            exact hstart
          · exact hall x h
      · rw [if_neg hbd]
        rcases ih d0 with ⟨hmem, hstart, hall⟩
        have hbd2 : dateBefore d d0 = false := by
          cases hc : dateBefore d d0
          · rfl
          · exact absurd hc hbd
        refine ⟨?_, hstart, ?_⟩
        · rcases hmem with h | h
          · exact Or.inl h
          · exact Or.inr (List.mem_cons_of_mem d h)
        · intro x hx
          rcases List.mem_cons.mp hx with h | h
          · subst h
            rw [dateBefore_false_iff] at hbd2 hstart ⊢
            omega
          · exact hall x h

/-- The source's max fold over the index keys returns a key that no key
is after (it is the maximum date). -/
theorem spanMaxDate_spec (d0 : Date) (dates : List Date) :
    (spanMaxDate d0 dates = d0 ∨ spanMaxDate d0 dates ∈ dates) ∧
    dateBefore (spanMaxDate d0 dates) d0 = false ∧
    ∀ d ∈ dates, dateBefore (spanMaxDate d0 dates) d = false := by
  unfold spanMaxDate dateAfter
  induction dates generalizing d0 with
  | nil =>
      simp only [List.foldl_nil]
      refine ⟨Or.inl (by simp), ?_, ?_⟩
      · rw [dateBefore_false_iff]
        omega
      · intro d hd
        simp at hd
  | cons d rest ih =>
      rw [List.foldl_cons]
      by_cases hbd : dateBefore d0 d = true
      · rw [if_pos hbd]
        rcases ih d with ⟨hmem, hstart, hall⟩
        rw [dateBefore_iff] at hbd
        refine ⟨?_, ?_, ?_⟩
        · rcases hmem with h | h
          · refine Or.inr ?_
            rw [h]
            exact List.mem_cons_self d rest
          · exact Or.inr (List.mem_cons_of_mem d h)
        · rw [dateBefore_false_iff] at hstart ⊢
          omega
        · intro x hx
          rcases List.mem_cons.mp hx with h | h
          · subst h
            exact hstart
          · exact hall x h
      · rw [if_neg hbd]
        rcases ih d0 with ⟨hmem, hstart, hall⟩
        have hbd2 : dateBefore d0 d = false := by
          cases hc : dateBefore d0 d
          · rfl
          · exact absurd hc hbd
        refine ⟨?_, hstart, ?_⟩
        · rcases hmem with h | h
          · exact Or.inl h
          · exact Or.inr (List.mem_cons_of_mem d h)
        · intro x hx
          rcases List.mem_cons.mp hx with h | h
          · subst h
            rw [dateBefore_false_iff] at hbd2 hstart ⊢
            omega
          · exact hall x h

/-- Month linearization: months since the hypothetical month 0 of
year 0, shifted so that (y, m) with 1 ≤ m ≤ 12 maps to 12y + m. -/
def linMonth (ym : Nat × Nat) : Nat := 12 * ym.1 + ym.2

/-- Inverse of linMonth on months 1..12. -/
def monthOfLin (n : Nat) : Nat × Nat := ((n - 1) / 12, (n - 1) % 12 + 1)

theorem monthOfLin_valid (n : Nat) :
    1 ≤ (monthOfLin n).2 ∧ (monthOfLin n).2 ≤ 12 := by
  unfold monthOfLin
  constructor
  · omega
  · omega

theorem monthOfLin_lin (y mo : Nat) (h1 : 1 ≤ mo) (h2 : mo ≤ 12) :
    monthOfLin (linMonth (y, mo)) = (y, mo) := by
  unfold monthOfLin linMonth
  refine Prod.ext ?_ ?_
  · show (12 * y + mo - 1) / 12 = y
    omega
  · show (12 * y + mo - 1) % 12 + 1 = mo
    omega

theorem linMonth_monthOfLin (n : Nat) (h : 1 ≤ n) :
    linMonth (monthOfLin n) = n := by
  unfold monthOfLin linMonth
  show 12 * ((n - 1) / 12) + ((n - 1) % 12 + 1) = n
  omega

theorem addMonthGo_monthOfLin (n : Nat) (h : 1 ≤ n) :
    addMonthGo (monthOfLin n) = monthOfLin (n + 1) := by
  unfold addMonthGo monthOfLin
  by_cases hc : (n - 1) % 12 + 1 = 12
  · rw [if_pos hc]
    refine Prod.ext ?_ ?_
    · show (n - 1) / 12 + 1 = (n + 1 - 1) / 12
      omega
    · show 1 = (n + 1 - 1) % 12 + 1
      omega
  · rw [if_neg hc]
    refine Prod.ext ?_ ?_
    · show (n - 1) / 12 = (n + 1 - 1) / 12
      omega
    · show (n - 1) % 12 + 1 + 1 = (n + 1 - 1) % 12 + 1
      omega

theorem monthAfter_iff (a b : Nat × Nat) (ha1 : 1 ≤ a.2) (ha2 : a.2 ≤ 12)
    (hb1 : 1 ≤ b.2) (hb2 : b.2 ≤ 12) :
    monthAfter a b = true ↔ linMonth b < linMonth a := by
  unfold monthAfter linMonth
  simp only [Bool.or_eq_true, Bool.and_eq_true, decide_eq_true_iff, beq_iff_eq]
  omega

/-- The source's month loop produces exactly the consecutive months from
cur to e, for any sufficient fuel. -/
theorem monthsFromTo_spec (e : Nat × Nat) (he1 : 1 ≤ e.2) (he2 : e.2 ≤ 12) :
    ∀ (len fuel : Nat) (cur : Nat × Nat), 1 ≤ cur.2 → cur.2 ≤ 12 →
      linMonth e + 1 - linMonth cur = len → len ≤ fuel →
      monthsFromTo fuel cur e =
        (natRange 0 len).map (fun i => monthOfLin (linMonth cur + i)) := by
  intro len
  induction len with
  | zero =>
      intro fuel cur hc1 hc2 hlen _
      have hafter : monthAfter cur e = true := by
        rw [monthAfter_iff cur e hc1 hc2 he1 he2]
        omega
      cases fuel with
      | zero => rfl
      | succ fuel =>
          show (if monthAfter cur e = true then [] else _) = _
          rw [if_pos hafter]
          rfl
  | succ len ih =>
      intro fuel cur hc1 hc2 hlen hfuel
      have hle : linMonth cur ≤ linMonth e := by
        unfold linMonth at hlen ⊢
        omega
      have hafter : ¬ monthAfter cur e = true := by
        rw [monthAfter_iff cur e hc1 hc2 he1 he2]
        omega
      cases fuel with
      | zero => omega
      | succ fuel =>
          show (if monthAfter cur e = true then [] else
            cur :: monthsFromTo fuel (addMonthGo cur) e) = _
          rw [if_neg hafter]
          have hcur1 : 1 ≤ linMonth cur := by
            unfold linMonth
            omega
          have hcurol : monthOfLin (linMonth cur) = cur := by
            rcases cur with ⟨cy, cm⟩
            exact monthOfLin_lin cy cm hc1 hc2
          have hadd : addMonthGo cur = monthOfLin (linMonth cur + 1) := by
            conv_lhs => rw [← hcurol]
            rw [addMonthGo_monthOfLin _ hcur1]
          have hlin : linMonth (addMonthGo cur) = linMonth cur + 1 := by
            rw [hadd, linMonth_monthOfLin _ (by omega)]
          have hvalid1 : 1 ≤ (addMonthGo cur).2 := by
            rw [hadd]
            exact (monthOfLin_valid _).1
          have hvalid2 : (addMonthGo cur).2 ≤ 12 := by
            rw [hadd]
            exact (monthOfLin_valid _).2
          rw [ih fuel (addMonthGo cur) hvalid1 hvalid2 (by rw [hlin]; omega) (by omega),
            hlin]
          rw [show natRange 0 (len + 1) = 0 :: natRange 1 len from rfl, List.map_cons]
          rw [natRange_shift 0 len, List.map_map]
          congr 1
          · rw [Nat.add_zero, hcurol]
          · refine List.map_congr_left ?_
            intro i _
            show monthOfLin (linMonth cur + 1 + i) = monthOfLin (linMonth cur + (i + 1))
            congr 1
            omega

/-- C4: in span mode (no explicit month), for every non-empty DateIndex
the derived MonthRange starts at the first-of-month of the minimum date,
ends inclusively at the first-of-month of the maximum date, and steps by
exactly one calendar month with no gaps (covering intervening months
with zero activity); if the DateIndex is empty the MonthRange is empty
and nothing is rendered. -/
theorem C4_month_range (pc : PostCounts) (sc : Bool) (today : Date) (w : Nat)
    (hvalid : ∀ e ∈ pc, 1 ≤ e.1.month ∧ e.1.month ≤ 12) :
    (pc = [] → renderCalendarsMonths pc none = [] ∧
      renderCalendars pc sc none today w = []) ∧
    (∀ p ps, pc = p :: ps →
      (spanMinDate p.1 (pc.map (fun e => e.1)) ∈ pc.map (fun e => e.1)) ∧
      (∀ d ∈ pc.map (fun e => e.1),
        dateBefore d (spanMinDate p.1 (pc.map (fun e => e.1))) = false) ∧
      (spanMaxDate p.1 (pc.map (fun e => e.1)) ∈ pc.map (fun e => e.1)) ∧
      (∀ d ∈ pc.map (fun e => e.1),
        dateBefore (spanMaxDate p.1 (pc.map (fun e => e.1))) d = false) ∧
      (renderCalendarsMonths pc none).head? =
        some ((spanMinDate p.1 (pc.map (fun e => e.1))).year,
              (spanMinDate p.1 (pc.map (fun e => e.1))).month) ∧
      (renderCalendarsMonths pc none).getLast? =
        some ((spanMaxDate p.1 (pc.map (fun e => e.1))).year,
              (spanMaxDate p.1 (pc.map (fun e => e.1))).month) ∧
      (renderCalendarsMonths pc none).length =
        linMonth ((spanMaxDate p.1 (pc.map (fun e => e.1))).year,
                  (spanMaxDate p.1 (pc.map (fun e => e.1))).month) + 1 -
          linMonth ((spanMinDate p.1 (pc.map (fun e => e.1))).year,
                    (spanMinDate p.1 (pc.map (fun e => e.1))).month) ∧
      (∀ i : Nat, i + 1 < (renderCalendarsMonths pc none).length →
        (renderCalendarsMonths pc none)[i + 1]? =
          Option.map addMonthGo (renderCalendarsMonths pc none)[i]?)) := by
  constructor
  · intro hpc
    subst hpc
    exact ⟨rfl, rfl⟩
  · intro p ps hpc
    subst hpc
    set dates := (p :: ps).map (fun e => e.1) with hdates
    have hdates2 : dates = p.1 :: ps.map (fun e => e.1) := by
      rw [hdates, List.map_cons]
    set minD := spanMinDate p.1 dates with hminD
    set maxD := spanMaxDate p.1 dates with hmaxD
    have hvd : ∀ dd ∈ dates, 1 ≤ dd.month ∧ dd.month ≤ 12 := by
      intro dd hdd
      rcases List.mem_map.mp hdd with ⟨e, he, hee⟩
      rw [← hee]
      exact hvalid e he
    have hminspec := spanMinDate_spec p.1 (p.1 :: ps.map (fun e => e.1))
    have hmaxspec := spanMaxDate_spec p.1 (p.1 :: ps.map (fun e => e.1))
    rw [← hdates2] at hminspec hmaxspec
    rw [← hminD] at hminspec
    rw [← hmaxD] at hmaxspec
    have hminmem : minD ∈ dates := by
      rcases hminspec.1 with h | h
      · rw [hdates2, h]
        exact List.mem_cons_self _ _
      · exact h
    have hmaxmem : maxD ∈ dates := by
      rcases hmaxspec.1 with h | h
      · rw [hdates2, h]
        exact List.mem_cons_self _ _
      · exact h
    have hd0mem : p.1 ∈ dates := by
      rw [hdates2]
      exact List.mem_cons_self _ _
    have hm0 := hvd p.1 hd0mem
    have hm1 := hvd minD hminmem
    have hm2 := hvd maxD hmaxmem
    have hlinle : linMonth (minD.year, minD.month) ≤ linMonth (maxD.year, maxD.month) := by
      have h1 := hminspec.2.1
      have h2 := hmaxspec.2.1
      rw [dateBefore_false_iff] at h1 h2
      unfold linMonth
      simp only at h1 h2 ⊢
      omega
    have hlinm : linMonth (minD.year, minD.month) = 12 * minD.year + minD.month := rfl
    have hlinM : linMonth (maxD.year, maxD.month) = 12 * maxD.year + maxD.month := rfl
    have hrcm : renderCalendarsMonths ((p :: ps) : PostCounts) none =
        monthsFromTo (12 * (maxD.year + 1)) (minD.year, minD.month)
          (maxD.year, maxD.month) := rfl
    have hL1 : (1 : Nat) ≤ linMonth (minD.year, minD.month) := by
      unfold linMonth
      simp only
      omega
    have hmonths : renderCalendarsMonths ((p :: ps) : PostCounts) none =
        (natRange 0 (linMonth (maxD.year, maxD.month) + 1 -
            linMonth (minD.year, minD.month))).map
          (fun i => monthOfLin (linMonth (minD.year, minD.month) + i)) := by
      have hfuel : linMonth (maxD.year, maxD.month) + 1 -
          linMonth (minD.year, minD.month) ≤ 12 * (maxD.year + 1) := by
        have e1 : linMonth (maxD.year, maxD.month) = 12 * maxD.year + maxD.month := rfl
        have e2 : linMonth (minD.year, minD.month) = 12 * minD.year + minD.month := rfl
        rw [e1, e2]
        omega
      rw [hrcm]
      exact monthsFromTo_spec (maxD.year, maxD.month) hm2.1 hm2.2
        (linMonth (maxD.year, maxD.month) + 1 - linMonth (minD.year, minD.month))
        (12 * (maxD.year + 1))
        (minD.year, minD.month) hm1.1 hm1.2 rfl hfuel
    refine ⟨hminmem, hminspec.2.2, hmaxmem, hmaxspec.2.2, ?_, ?_, ?_, ?_⟩
    · rw [hmonths]
      obtain ⟨L2, hL2⟩ : ∃ L2, linMonth (maxD.year, maxD.month) + 1 -
          linMonth (minD.year, minD.month) = L2 + 1 :=
        ⟨linMonth (maxD.year, maxD.month) - linMonth (minD.year, minD.month), by omega⟩
      rw [hL2]
      show ((0 :: natRange 1 L2).map _).head? = _
      rw [List.map_cons, List.head?_cons]
      rw [Nat.add_zero, monthOfLin_lin _ _ hm1.1 hm1.2]
    · rw [hmonths, List.getLast?_eq_getElem?, List.length_map, natRange_length,
        List.getElem?_map, natRange_getElem, if_pos (by omega)]
      have harg : 0 + (linMonth (maxD.year, maxD.month) + 1 -
          linMonth (minD.year, minD.month) - 1) =
          linMonth (maxD.year, maxD.month) - linMonth (minD.year, minD.month) := by
        omega
      rw [harg]
      show some (monthOfLin (linMonth (minD.year, minD.month) +
        (linMonth (maxD.year, maxD.month) - linMonth (minD.year, minD.month)))) = _
      have harg2 : linMonth (minD.year, minD.month) +
          (linMonth (maxD.year, maxD.month) - linMonth (minD.year, minD.month)) =
          linMonth (maxD.year, maxD.month) := by omega
      rw [harg2, monthOfLin_lin _ _ hm2.1 hm2.2]
    · rw [hmonths, List.length_map, natRange_length]
    · intro i hi
      rw [hmonths] at hi ⊢
      rw [List.length_map, natRange_length] at hi
      rw [List.getElem?_map, List.getElem?_map, natRange_getElem, natRange_getElem,
        if_pos (by omega), if_pos (by omega)]
      show some (monthOfLin (linMonth (minD.year, minD.month) + (0 + (i + 1)))) = _
      rw [Option.map_map]
      show _ = some (addMonthGo (monthOfLin (linMonth (minD.year, minD.month) + (0 + i))))
      rw [addMonthGo_monthOfLin _ (by omega)]
      have harg : linMonth (minD.year, minD.month) + (0 + (i + 1)) =
          linMonth (minD.year, minD.month) + (0 + i) + 1 := by omega
      rw [harg]

theorem C4_month_range_witness :
    (renderCalendarsMonths
        [(Date.mk 2024 1 20, 1), (Date.mk 2024 3 3, 2)] none).head?.isSome := by
  have h := (C4_month_range [(Date.mk 2024 1 20, 1), (Date.mk 2024 3 3, 2)] false
      (Date.mk 2024 1 1) 80 (by decide)).2
    (Date.mk 2024 1 20, 1) [(Date.mk 2024 3 3, 2)] rfl
  rw [h.2.2.2.2.1]
  rfl

/-! ## Claim theorems: empty index with explicit month -/

/-- C1 counterexample: with an explicit month "2024-02" requested while
the DateIndex is empty, main prints the informational no-posts message
and returns before renderCalendars, so rendering is skipped, not
performed. -/
theorem C1_counterexample :
    mainRender [] false (some (2024, 2)) (Date.mk 2024 2 15) 80 = none := rfl

/-- C1 (amended): if an explicit month is requested while the DateIndex
is empty, main skips rendering (the early no-posts return fires before
renderCalendars; no fatal error).  Had renderCalendars been invoked with
that configuration, the MonthRange would be exactly the requested single
month, rendering would produce output lines, and every day cell would
carry count 0, presenting as neutral whenever its date is not the run's
current date. -/
theorem C1_empty_index_explicit_month (y m : Nat) (sc : Bool) (today : Date) (w : Nat) :
    mainRender [] sc (some (y, m)) today w = none ∧
    renderCalendarsMonths [] (some (y, m)) = [(y, m)] ∧
    renderCalendars [] sc (some (y, m)) today w ≠ [] ∧
    (∀ row ∈ calendarGridCells y m [] today, ∀ cell ∈ row,
      ∀ (d cnt : Nat) (t : Bool), cell = Cell.day d cnt t →
        cnt = 0 ∧ (Date.mk y m d ≠ today →
          (renderDayCell sc d cnt t).1 = CellStyle.neutral)) := by
  refine ⟨rfl, rfl, ?_, ?_⟩
  · show (monthChunks (calendarsPerRow w) [(y, m)]).flatMap
        (displayRowLines [] today sc) ≠ []
    have hcpr : 1 ≤ calendarsPerRow w := calendarsPerRow_pos w
    have htake : List.take (calendarsPerRow w) [(y, m)] = [(y, m)] :=
      List.take_of_length_le (by simp [hcpr])
    show (chunksAux (calendarsPerRow w) 1 [(y, m)]).flatMap
        (displayRowLines [] today sc) ≠ []
    show ((List.take (calendarsPerRow w) [(y, m)]) ::
        chunksAux (calendarsPerRow w) 0 (List.drop (calendarsPerRow w) [(y, m)])).flatMap
        (displayRowLines [] today sc) ≠ []
    rw [htake]
    show displayRowLines [] today sc [(y, m)] ++ _ ≠ []
    unfold displayRowLines
    simp
  · intro row hrow cell hcell d cnt t hc
    rcases grid_cell_cases y m [] today row cell hrow hcell with h | ⟨d2, _, _, h⟩
    · rw [h] at hc
      exact absurd hc (by simp)
    · rw [h] at hc
      unfold mkCell at hc
      have hd : d2 = d := ((Cell.day.injEq _ _ _ _ _ _).mp hc).1
      have hcnt : lookupCount [] (Date.mk y m d2) = cnt :=
        ((Cell.day.injEq _ _ _ _ _ _).mp hc).2.1
      have ht : decide (Date.mk y m d2 = today) = t :=
        ((Cell.day.injEq _ _ _ _ _ _).mp hc).2.2
      subst hd
      have hcnt0 : cnt = 0 := by
        rw [← hcnt]
        rfl
      refine ⟨hcnt0, ?_⟩
      intro htoday
      rw [renderDayCell_style, ← ht]
      simp [htoday, hcnt0]

theorem C1_empty_index_explicit_month_witness :
    mainRender [] false (some (2024, 2)) (Date.mk 2024 3 1) 80 = none ∧
    renderCalendarsMonths [] (some (2024, 2)) = [(2024, 2)] ∧
    renderCalendars [] false (some (2024, 2)) (Date.mk 2024 3 1) 80 ≠ [] ∧
    ((0 : Nat) = 0 ∧ (Date.mk 2024 2 1 ≠ Date.mk 2024 3 1 →
      (renderDayCell false 1 0 false).1 = CellStyle.neutral)) := by
  have h := C1_empty_index_explicit_month 2024 2 false (Date.mk 2024 3 1) 80
  exact ⟨h.1, h.2.1, h.2.2.1,
    h.2.2.2 ((calendarGridCells 2024 2 [] (Date.mk 2024 3 1)).getD 0 [])
      (by decide) (Cell.day 1 0 false) (by decide) 1 0 false rfl⟩

/-! ## Claim theorems: month flag without value -/

/-- C10: if the -m or --month flag is given without a following value (the
next argument is absent or starts with a dash), the configuration's
explicit month defaults to the current month string rather than being
rejected or treated as no-month; in particular a full parse of
path plus bare -m succeeds with the current month set, so an explicit
single-month range for the current month is used. -/
theorem C10_month_flag_default (nowMonth : String)
    (hvalid : validMonthStr nowMonth = true) (c : Config) (rest : List String)
    (a : String) (ha : a = "-m" ∨ a = "--month")
    (hrest : rest = [] ∨ ∃ v rest2, rest = v :: rest2 ∧ strHasPrefix v "-" = true) :
    parseArgsLoop nowMonth (a :: rest) c =
      parseArgsLoop nowMonth rest { c with month := some nowMonth } ∧
    parseArgs nowMonth ["proj", "-m"] =
      some { projectPath := "proj", filterText := "", showCounts := false,
             month := some nowMonth } := by
  constructor
  · rcases hrest with hrest | ⟨v, rest2, hrest, hv⟩ <;> subst hrest <;>
      rcases ha with ha | ha <;> subst ha
    · rfl
    · rfl
    · show (if ("-m" : String) = "-f" ∨ ("-m" : String) = "--filter" then _ else _) = _
      rw [if_neg (by simp), if_neg (by simp), if_pos (by simp)]
      show (if strHasPrefix v "-" = true then _ else _) = _
      rw [if_pos hv]
    · show (if ("--month" : String) = "-f" ∨ ("--month" : String) = "--filter"
          then _ else _) = _
      rw [if_neg (by simp), if_neg (by simp), if_pos (by simp)]
      show (if strHasPrefix v "-" = true then _ else _) = _
      rw [if_pos hv]
  · have hloop : parseArgsLoop nowMonth ["proj", "-m"] defaultConfig =
        some { projectPath := "proj", filterText := "", showCounts := false,
               month := some nowMonth } := rfl
    show (if (["proj", "-m"] : List String).length = 0 then none else _) = _
    rw [if_neg (by decide)]
    rw [hloop]
    show (if ("proj" : String) = "" then none else _) = _
    rw [if_neg (by decide)]
    show (if validMonthStr nowMonth = true then _ else _) = _
    rw [if_pos hvalid]

theorem C10_month_flag_default_witness :
    parseArgsLoop "2025-10" ["-m", "-c"] defaultConfig =
      parseArgsLoop "2025-10" ["-c"] { defaultConfig with month := some "2025-10" } ∧
    parseArgs "2025-10" ["proj", "-m"] =
      some { projectPath := "proj", filterText := "", showCounts := false,
             month := some "2025-10" } :=
  C10_month_flag_default "2025-10" (by decide) defaultConfig ["-c"] "-m"
    (Or.inl rfl) (Or.inr ⟨"-c", [], rfl, by decide⟩)

theorem C7_calendars_per_row_witness :
    calendarsPerRow 30 = max 1 (30 / 22) ∧
    (monthChunks (calendarsPerRow 30) [((2024 : Nat), (1 : Nat)), (2024, 2)]).flatten =
      [((2024 : Nat), (1 : Nat)), (2024, 2)] :=
  ⟨C7_calendars_per_row.1 30,
   C7_calendars_per_row.2.2.2.1 30 [((2024 : Nat), (1 : Nat)), (2024, 2)]⟩
